import Mathlib

/-!
Verification of the resumable streaming filter pipeline in
`scripts/processFiles_sm.py` (reddit-data-analysis).

The Python module is shallowly embedded below.  Strings are Lean `String`s,
with the string operations the script relies on (`str.lower`, `str.strip`,
`str.split`, `os.path.basename`, substring membership, `str(int)` / `int(str)`)
modelled explicitly over the underlying character lists.  File-system state is
explicit: the output directory is an association list from file name to the
list of records the file holds (opening a shard in append mode therefore keeps
whatever the file already contains), the single progress file is the optional
string it contains, and the error log is the list of entries appended so far.
Python exceptions are modelled with `Except`: the only operation the script
leaves unguarded whose failure the claims interrogate is `open(error_log_file,
"a")` inside `log_error`, so the run state carries a flag saying whether that
open succeeds; every other `open` is modelled as succeeding (their failure is
fatal to the whole run and outside the properties below).  `FileProgressLog`
is purely observational and is modelled as a no-op.  `os.path.abspath` is
modelled as the identity: paths are taken to be already in canonical form.
-/

set_option autoImplicit false

namespace ProcessFiles

/-! ## Character-list string operations used by the script -/

/-- Model of Python `str.split(sep)` for a one-character separator:
`splitOnChar sep s` cuts `s` at every occurrence of `sep`; the empty string
splits to `[[]]`, matching Python's `"".split(sep) == [""]`. -/
def splitOnChar (sep : Char) : List Char → List (List Char)
  | [] => [[]]
  | c :: t =>
    if c = sep then [] :: splitOnChar sep t
    else
      match splitOnChar sep t with
      | h :: r => (c :: h) :: r
      | [] => [[c]]

/-- Occurrence of `needle` as a contiguous substring of `hay`; model of
Python's `needle in hay` on strings. -/
def hasSub (needle : List Char) : List Char → Bool
  | [] => needle.isEmpty
  | c :: t => needle.isPrefixOf (c :: t) || hasSub needle t

/-- Model of Python `str.lower` (ASCII case folding suffices for the
file names and subreddit names this pipeline compares). -/
def lowerChars (s : List Char) : List Char :=
  s.map Char.toLower

/-- Model of Python `str.strip()`: remove leading and trailing whitespace. -/
def stripChars (s : List Char) : List Char :=
  ((s.dropWhile Char.isWhitespace).reverse.dropWhile Char.isWhitespace).reverse

/-- Model of `file.readline()` on a text file: the characters before the
first newline (the newline itself is then removed by `strip`). -/
def firstLineChars (s : List Char) : List Char :=
  s.takeWhile (fun c => c ≠ '\n')

/-- The decimal digit character for `d < 10`. -/
def digitChar (d : Nat) : Char :=
  Char.ofNat (48 + d)

/-- Inverse of `digitChar`: `some d` when `c` is the digit `d`. -/
def charDigit? (c : Char) : Option Nat :=
  if 48 ≤ c.toNat ∧ c.toNat ≤ 57 then some (c.toNat - 48) else none

/-- Decimal rendering of a natural number, fuel-structured so that it
reduces definitionally; model of Python `str` on the (nonnegative) row
ordinals the script writes.  The fuel is always sufficient at `natToChars`. -/
def natToCharsAux (fuel n : Nat) : List Char :=
  if n < 10 then [digitChar n]
  else
    match fuel with
    | 0 => []
    | fuel + 1 => natToCharsAux fuel (n / 10) ++ [digitChar (n % 10)]

/-- Decimal rendering of a natural number (see `natToCharsAux`). -/
def natToChars (n : Nat) : List Char :=
  natToCharsAux n n

/-- Accumulator pass of decimal parsing. -/
def parseNatAux : List Char → Nat → Option Nat
  | [], acc => some acc
  | c :: t, acc =>
    match charDigit? c with
    | some d => parseNatAux t (acc * 10 + d)
    | none => none

/-- Model of Python `int(str)` restricted to the plain decimal numerals
`save_progress` writes: all-digit, nonempty strings parse, anything else
raises `ValueError` (`none` here). -/
def parseNat? (s : List Char) : Option Nat :=
  match s with
  | [] => none
  | _ => parseNatAux s 0

/-- Model of `os.path.basename`: the final `/`-separated component. -/
def basenameChars (p : List Char) : List Char :=
  (splitOnChar '/' p).getLastD []

/-- Zero-padded four-digit rendering; model of Python `f"{i:04}"`. -/
def pad4 (n : Nat) : List Char :=
  let s := natToChars n
  List.replicate (4 - s.length) '0' ++ s

/-! ## Data model -/

/-- One decoded JSON record: the open-ended key/value mapping, of which the
pipeline only ever reads the string field `"subreddit"`. -/
abbrev Record := List (String × String)

/-- Model of Python `row.get(key, dflt)`. -/
def rowGet (r : Record) (key dflt : String) : String :=
  match r.find? (fun p => p.1 = key) with
  | some p => p.2
  | none => dflt

/-- One element yielded by `getFileJsonStream`: either a record whose
handling succeeds, or a row whose handling raises an exception carrying
message `e` (for example a record whose `subreddit` field is not a string,
so that `.lower()` raises `AttributeError`). -/
inductive Row where
  | ok (r : Record)
  | bad (e : String)
  deriving Repr, DecidableEq

/-- One structured entry appended to `errors.log` by `log_error`. -/
structure ErrorEntry where
  file : String
  row_idx : Nat
  err : String
  deriving Repr, DecidableEq

/-- The output directory: file name ↦ records currently in the file.  A
missing name is an absent file; opening in append mode keeps the contents. -/
abbrev Dir := List (String × List Record)

/-- Records currently in file `name` (empty for an absent file). -/
def dirGet (d : Dir) (name : String) : List Record :=
  match d with
  | [] => []
  | (n, rs) :: t => if n = name then rs else dirGet t name

/-- Append one record to file `name`, creating it when absent; model of a
`write` on a handle opened with mode `"a"`. -/
def dirAppend (d : Dir) (name : String) (r : Record) : Dir :=
  match d with
  | [] => [(name, [r])]
  | (n, rs) :: t => if n = name then (n, rs ++ [r]) :: t else (n, rs) :: dirAppend t name r

/-- Total number of records across all files of the directory. -/
def totalRows (d : Dir) : Nat :=
  (d.map (fun p => p.2.length)).sum

/-- The mutable state the script threads through a run: the output
directory, the error log, the progress file's content (`none` when the file
does not exist), and whether `open(error_log_file, "a")` succeeds. -/
structure RunState where
  dir : Dir
  errors : List ErrorEntry
  checkpoint : Option String
  errLogOk : Bool
  deriving Repr, DecidableEq

/-- A fresh state: empty output directory, no errors, no progress file,
and a writable error log. -/
def initState : RunState :=
  { dir := [], errors := [], checkpoint := none, errLogOk := true }

/-- The module-level configuration constants of the script, gathered into a
structure so that scenarios with other thresholds can be stated. -/
structure Config where
  target_subreddits : List String
  rows_per_file : Nat
  submissionsPfx : String
  commentsPfx : String
  deriving Repr, DecidableEq

/-- The literal configuration of `processFiles_sm.py`. -/
def defaultConfig : Config :=
  { target_subreddits := ["selfhosting", "selfhosted", "homelab", "homeserver", "homenetworking"],
    rows_per_file := 100000,
    submissionsPfx := "filtered_submissions",
    commentsPfx := "filtered_comments" }

/-- One enumerated input file: its path, and what `getFileJsonStream`
yields for it — `none` when the container format is unrecognized, otherwise
the finite sequence of rows in ordinal order. -/
structure InputFile where
  path : String
  stream : Option (List Row)
  deriving Repr, DecidableEq

/-! ## The embedded script -/

/-- Shard file name `f"{pfx}_{i:04}.jsonl"`. -/
def shardName (pfx : String) (i : Nat) : String :=
  pfx ++ String.mk ('_' :: pad4 i) ++ ".jsonl"

/-- The in-memory fields of a `SplitWriter`.  The handle it holds open is
determined by these fields: after `_open_new_file` the open shard is the one
with index `file_index - 1`. -/
structure SplitWriter where
  pfx : String
  file_index : Nat
  row_count : Nat
  deriving Repr, DecidableEq

/-- `SplitWriter._open_new_file`: open shard `file_index` with mode `"a"`
(no effect on the directory contents beyond creating an absent file, which
the `Dir` model represents implicitly), reset `row_count`, bump
`file_index`. -/
def SplitWriter.open_new_file (w : SplitWriter) : SplitWriter :=
  { w with row_count := 0, file_index := w.file_index + 1 }

/-- `SplitWriter.__init__`. -/
def SplitWriter.init (pfx : String) : SplitWriter :=
  SplitWriter.open_new_file { pfx := pfx, file_index := 0, row_count := 0 }

/-- The shard the writer currently has open. -/
def SplitWriter.currentFile (w : SplitWriter) : String :=
  shardName w.pfx (w.file_index - 1)

/-- `SplitWriter.write`: append the serialized row to the open shard, count
it, and rotate once the count reaches `rows_per_file`.  The caller gets the
updated state and nothing else — rotation produces no distinguished result. -/
def SplitWriter.write (cfg : Config) (w : SplitWriter) (d : Dir) (row : Record) :
    SplitWriter × Dir :=
  let d := dirAppend d w.currentFile row
  let w := { w with row_count := w.row_count + 1 }
  if cfg.rows_per_file ≤ w.row_count then (w.open_new_file, d) else (w, d)

/-- `log_error`: append one structured entry to `errors.log`.  The body is a
bare `with open(error_log_file, "a")`: when that open raises, nothing
catches it and the exception propagates to the caller. -/
def log_error (st : RunState) (file : String) (row_idx : Nat) (exc : String) :
    Except String RunState :=
  if st.errLogOk then
    .ok { st with errors := st.errors ++ [⟨file, row_idx, exc⟩] }
  else
    .error "OSError"

/-- The single line `save_progress` writes: `f"{filename}\t{row_idx}\n"`. -/
def ckptLine (filename : String) (row_idx : Nat) : String :=
  filename ++ String.mk ('\t' :: natToChars row_idx) ++ "\n"

/-- `save_progress`: overwrite the progress file (mode `"w"`). -/
def save_progress (st : RunState) (filename : String) (row_idx : Nat) : RunState :=
  { st with checkpoint := some (ckptLine filename row_idx) }

/-- `load_progress`: when the progress file exists read its first line,
strip it, and — when nonempty — split on tab and parse the ordinal.  A line
that does not split into exactly two tab-separated fields, or whose second
field is not a numeral, raises `ValueError` (uncaught). -/
def load_progress (st : RunState) : Except String (Option String × Nat) :=
  match st.checkpoint with
  | none => .ok (none, 0)
  | some content =>
    let line := stripChars (firstLineChars content.data)
    if line.isEmpty then .ok (none, 0)
    else
      match splitOnChar '\t' line with
      | [f, r] =>
        match parseNat? r with
        | some n => .ok (some (String.mk f), n)
        | none => .error "ValueError"
      | _ => .error "ValueError"

/-- File kinds; `detect_file_type` returns `"submission"`, `"comment"` or
`"unknown"`. -/
inductive FileType where
  | submission
  | comment
  | unknown
  deriving Repr, DecidableEq

/-- `detect_file_type`: lower-case the base name and test for the
substrings `rs_` then `rc_`. -/
def detect_file_type (path : String) : FileType :=
  let base := lowerChars (basenameChars path.data)
  if hasSub "rs_".data base then .submission
  else if hasSub "rc_".data base then .comment
  else .unknown

/-- The body of the `for i, row in enumerate(jsonStream)` loop for one row
that has passed the `i < start_row` skip: `progressLog.onRow()` (no state
effect), extract and lower the `subreddit` field, drop non-matching rows,
write matching rows, and save progress when `i % 1000 == 0`; any exception
raised while handling the row is caught and delegated to `log_error`
(whose own failure is the one thing that still propagates). -/
def processRow (cfg : Config) (path : String) (i : Nat) (row : Row)
    (w : SplitWriter) (st : RunState) : Except String (SplitWriter × RunState) :=
  match row with
  | .bad e =>
    match log_error st path i e with
    | .ok st => .ok (w, st)
    | .error e => .error e
  | .ok r =>
    let subreddit := String.mk (lowerChars (rowGet r "subreddit" "").data)
    if subreddit ∈ cfg.target_subreddits then
      let (w, d) := SplitWriter.write cfg w st.dir r
      let st := { st with dir := d }
      let st := if i % 1000 = 0 then save_progress st path i else st
      .ok (w, st)
    else
      .ok (w, st)

/-- The `for i, row in enumerate(jsonStream)` loop from row index `i`
onward: rows with `i < start_row` are skipped by `continue` before the
`try` block and have no effect at all. -/
def processRows (cfg : Config) (path : String) (start_row : Nat) :
    List Row → Nat → SplitWriter → RunState → Except String (SplitWriter × RunState)
  | [], _, w, st => .ok (w, st)
  | row :: rest, i, w, st =>
    if i < start_row then processRows cfg path start_row rest (i + 1) w st
    else
      match processRow cfg path i row w st with
      | .ok (w, st) => processRows cfg path start_row rest (i + 1) w st
      | .error e => .error e

/-- `processFile`: classify the file by name and return before any open
when it is unrecognized; otherwise open it, and skip it when
`getFileJsonStream` reports an unknown container format; otherwise build a
fresh `SplitWriter` for the file's kind and run the row loop.
`writer.close()` and the final progress line have no effect on the
modelled state. -/
def processFile (cfg : Config) (file : InputFile) (start_row : Nat) (st : RunState) :
    Except String RunState :=
  match detect_file_type file.path with
  | .unknown => .ok st
  | ftype =>
    match file.stream with
    | none => .ok st
    | some rows =>
      let pfx :=
        match ftype with
        | .submission => cfg.submissionsPfx
        | .comment => cfg.commentsPfx
        | .unknown => ""
      match processRows cfg file.path start_row rows 0 (SplitWriter.init pfx) st with
      | .ok (_, st) => .ok st
      | .error e => .error e

/-- The loop body of `processFolder` with the `started` flag explicit:
before the start file is seen, a file is compared against it (by canonical
path) and otherwise skipped without being classified or opened; the start
file itself is processed from `start_row`; every later file is processed
with the default `start_row = 0`. -/
def processFolderAux (cfg : Config) (start_file : String) (start_row : Nat) :
    List InputFile → Bool → RunState → Except String RunState
  | [], _, st => .ok st
  | f :: rest, started, st =>
    if started then
      match processFile cfg f 0 st with
      | .ok st => processFolderAux cfg start_file start_row rest true st
      | .error e => .error e
    else
      if f.path = start_file then
        match processFile cfg f start_row st with
        | .ok st => processFolderAux cfg start_file start_row rest true st
        | .error e => .error e
      else
        processFolderAux cfg start_file start_row rest false st

/-- `processFolder`: `started = start_file is None`. -/
def processFolder (cfg : Config) (files : List InputFile) (start_file : Option String)
    (start_row : Nat) (st : RunState) : Except String RunState :=
  match start_file with
  | none => processFolderAux cfg "" 0 files true st
  | some sf => processFolderAux cfg sf start_row files false st

/-! ## Statement-side helpers -/

/-- Whether the filter admits record `r`: its `subreddit` field (defaulted
to the empty string when missing), case-normalized, lies in the target set. -/
def rowMatches (cfg : Config) (r : Record) : Bool :=
  String.mk (lowerChars (rowGet r "subreddit" "").data) ∈ cfg.target_subreddits

/-- How many rows of a stream segment the filter admits. -/
def matchCount (cfg : Config) : List Row → Nat
  | [] => 0
  | .ok r :: rest => (if rowMatches cfg r then 1 else 0) + matchCount cfg rest
  | .bad _ :: rest => matchCount cfg rest

/-- The error-log entries produced by the raising rows of a stream segment
whose first row has ordinal `i`. -/
def badEntries (p : String) : List Row → Nat → List ErrorEntry
  | [], _ => []
  | .ok _ :: rest, i => badEntries p rest (i + 1)
  | .bad e :: rest, i => ⟨p, i, e⟩ :: badEntries p rest (i + 1)

/-! ## Directory lemmas -/

theorem dirGet_dirAppend_same (d : Dir) (name : String) (r : Record) :
    dirGet (dirAppend d name r) name = dirGet d name ++ [r] := by
  induction d with
  | nil => simp [dirGet, dirAppend]
  | cons hd t ih =>
    obtain ⟨n, rs⟩ := hd
    by_cases h : n = name
    · simp [dirGet, dirAppend, h]
    · simp [dirGet, dirAppend, h, ih]

theorem dirGet_dirAppend_ne (d : Dir) (name m : String) (r : Record) (h : m ≠ name) :
    dirGet (dirAppend d name r) m = dirGet d m := by
  induction d with
  | nil => simp [dirGet, dirAppend, Ne.symm h]
  | cons hd t ih =>
    obtain ⟨n, rs⟩ := hd
    by_cases hn : n = name
    · subst hn
      simp [dirGet, dirAppend, Ne.symm h]
    · simp [dirGet, dirAppend, hn, ih]

theorem totalRows_dirAppend (d : Dir) (name : String) (r : Record) :
    totalRows (dirAppend d name r) = totalRows d + 1 := by
  induction d with
  | nil => simp [totalRows, dirAppend]
  | cons hd t ih =>
    obtain ⟨n, rs⟩ := hd
    by_cases h : n = name
    · simp [totalRows, dirAppend, h]
      omega
    · simp only [totalRows, dirAppend, h, if_false, List.map_cons, List.sum_cons]
      simp only [totalRows] at ih
      omega

/-! ## Decimal numeral lemmas -/

theorem charDigit_digitChar (d : Nat) (h : d < 10) :
    charDigit? (digitChar d) = some d := by
  interval_cases d <;> decide

theorem natToCharsAux_fuel (f1 : Nat) : ∀ f2 n, n ≤ f1 → n ≤ f2 →
    natToCharsAux f1 n = natToCharsAux f2 n := by
  induction f1 with
  | zero =>
    intro f2 n h1 _
    interval_cases n
    cases f2 <;> simp [natToCharsAux]
  | succ f1 ih =>
    intro f2 n h1 h2
    by_cases hn : n < 10
    · cases f2 <;> simp [natToCharsAux, hn]
    · have h10 : 10 ≤ n := Nat.le_of_not_lt hn
      obtain ⟨f2', rfl⟩ : ∃ k, f2 = k + 1 := ⟨f2 - 1, by omega⟩
      simp only [natToCharsAux, hn, if_false]
      have hd : n / 10 ≤ f1 := by omega
      have hd' : n / 10 ≤ f2' := by
        have := Nat.div_le_self n 10
        omega
      rw [ih f2' (n / 10) hd hd']

theorem natToChars_small {n : Nat} (h : n < 10) : natToChars n = [digitChar n] := by
  cases hn : n with
  | zero => simp [natToChars, natToCharsAux]
  | succ m =>
    subst hn
    simp [natToChars, natToCharsAux, h]

theorem natToChars_step {n : Nat} (h : 10 ≤ n) :
    natToChars n = natToChars (n / 10) ++ [digitChar (n % 10)] := by
  obtain ⟨m, rfl⟩ : ∃ m, n = m + 1 := ⟨n - 1, by omega⟩
  simp only [natToChars, natToCharsAux, Nat.not_lt.mpr h, if_false]
  congr 1
  exact natToCharsAux_fuel m ((m + 1) / 10) ((m + 1) / 10)
    (by omega) (Nat.le_refl _)

theorem natToChars_ne_nil (n : Nat) : natToChars n ≠ [] := by
  by_cases h : n < 10
  · simp [natToChars_small h]
  · simp [natToChars_step (Nat.le_of_not_lt h)]

theorem natToChars_digits (n : Nat) : ∀ c ∈ natToChars n, ∃ d, d < 10 ∧ c = digitChar d := by
  induction n using Nat.strong_induction_on with
  | _ n ih =>
    by_cases h : n < 10
    · rw [natToChars_small h]
      intro c hc
      simp at hc
      exact ⟨n, h, hc⟩
    · rw [natToChars_step (Nat.le_of_not_lt h)]
      intro c hc
      rcases List.mem_append.mp hc with hc | hc
      · exact ih (n / 10) (Nat.div_lt_self (by omega) (by omega)) c hc
      · simp at hc
        exact ⟨n % 10, Nat.mod_lt _ (by omega), hc⟩

theorem parseNatAux_append (xs ys : List Char) : ∀ acc,
    parseNatAux (xs ++ ys) acc =
      match parseNatAux xs acc with
      | some a => parseNatAux ys a
      | none => none := by
  induction xs with
  | nil => intro acc; simp [parseNatAux]
  | cons c t ih =>
    intro acc
    simp only [List.cons_append, parseNatAux]
    cases charDigit? c with
    | none => simp
    | some d => simp [ih]

theorem parseNatAux_natToChars (n : Nat) : ∀ acc,
    parseNatAux (natToChars n) acc = some (acc * 10 ^ (natToChars n).length + n) := by
  induction n using Nat.strong_induction_on with
  | _ n ih =>
    intro acc
    by_cases h : n < 10
    · rw [natToChars_small h]
      simp [parseNatAux, charDigit_digitChar n h]
    · have h10 : 10 ≤ n := Nat.le_of_not_lt h
      rw [natToChars_step h10]
      rw [parseNatAux_append]
      rw [ih (n / 10) (Nat.div_lt_self (by omega) (by omega)) acc]
      simp only [parseNatAux, charDigit_digitChar (n % 10) (Nat.mod_lt _ (by omega))]
      have hmod : 10 * (n / 10) + n % 10 = n := Nat.div_add_mod n 10
      simp [List.length_append, pow_succ]
      ring_nf
      omega

theorem parseNat_natToChars (n : Nat) : parseNat? (natToChars n) = some n := by
  have hne := natToChars_ne_nil n
  obtain ⟨c, t, hct⟩ : ∃ c t, natToChars n = c :: t := by
    cases h : natToChars n with
    | nil => exact absurd h hne
    | cons c t => exact ⟨c, t, rfl⟩
  have := parseNatAux_natToChars n 0
  simp only [hct] at this ⊢
  simpa [parseNat?] using this

theorem parseNatAux_zeros (k : Nat) : ∀ s, parseNatAux (List.replicate k '0' ++ s) 0 =
    parseNatAux s 0 := by
  induction k with
  | zero => intro s; simp
  | succ k ih =>
    intro s
    simp only [List.replicate_succ, List.cons_append, parseNatAux]
    have : charDigit? '0' = some 0 := by decide
    simp [this, ih]

theorem pad4_inj {j k : Nat} (h : pad4 j = pad4 k) : j = k := by
  have hj : parseNatAux (pad4 j) 0 = some j := by
    simp only [pad4, parseNatAux_zeros]
    simpa using parseNatAux_natToChars j 0
  have hk : parseNatAux (pad4 k) 0 = some k := by
    simp only [pad4, parseNatAux_zeros]
    simpa using parseNatAux_natToChars k 0
  rw [h, hk] at hj
  exact (Option.some.injEq _ _).mp hj.symm

theorem shardName_inj {pfx : String} {j k : Nat} (h : shardName pfx j = shardName pfx k) :
    j = k := by
  apply pad4_inj
  have hd : pfx.data ++ (('_' :: pad4 j) ++ ".jsonl".data) =
      pfx.data ++ (('_' :: pad4 k) ++ ".jsonl".data) := by
    have := congrArg String.data h
    simpa [shardName, String.data_append] using this
  have h1 := List.append_cancel_left hd
  have h2 : pad4 j ++ ".jsonl".data = pad4 k ++ ".jsonl".data := by
    simpa using h1
  exact List.append_cancel_right h2

theorem digit_props {d : Nat} (h : d < 10) :
    digitChar d ≠ '\t' ∧ digitChar d ≠ '\n' ∧ (digitChar d).isWhitespace = false := by
  interval_cases d <;> exact (by decide)

theorem natToChars_props (n : Nat) :
    ∀ c ∈ natToChars n, c ≠ '\t' ∧ c ≠ '\n' ∧ c.isWhitespace = false := by
  intro c hc
  obtain ⟨d, hd, rfl⟩ := natToChars_digits n c hc
  exact digit_props hd

/-! ## takeWhile / dropWhile / split lemmas -/

theorem takeWhile_append_all {α : Type} (q : α → Bool) (xs ys : List α)
    (h : ∀ x ∈ xs, q x = true) :
    (xs ++ ys).takeWhile q = xs ++ ys.takeWhile q := by
  induction xs with
  | nil => simp
  | cons c t ih =>
    have hc : q c = true := h c (List.mem_cons_self c t)
    simp only [List.cons_append, List.takeWhile_cons, hc, if_true]
    rw [ih fun x hx => h x (List.mem_cons_of_mem c hx)]

theorem dropWhile_cons_false {α : Type} (q : α → Bool) (c : α) (l : List α)
    (h : q c = false) : (c :: l).dropWhile q = c :: l := by
  simp [List.dropWhile_cons, h]

theorem stripChars_eq_self {l : List Char}
    (h1 : ∀ c, l.head? = some c → c.isWhitespace = false)
    (h2 : ∀ c, l.getLast? = some c → c.isWhitespace = false) :
    stripChars l = l := by
  cases l with
  | nil => rfl
  | cons c t =>
    have hc : c.isWhitespace = false := h1 c rfl
    unfold stripChars
    rw [dropWhile_cons_false _ _ _ hc]
    cases hr : (c :: t).reverse with
    | nil => exact absurd (congrArg List.length hr) (by simp)
    | cons d u =>
      have hd : d.isWhitespace = false := by
        apply h2
        have : (c :: t).reverse.head? = some d := by rw [hr]; rfl
        rwa [List.head?_reverse] at this
      rw [dropWhile_cons_false _ _ _ hd, ← hr, List.reverse_reverse]

theorem splitOnChar_no_sep {sep : Char} : ∀ l : List Char, (∀ c ∈ l, c ≠ sep) →
    splitOnChar sep l = [l] := by
  intro l
  induction l with
  | nil => intro _; rfl
  | cons c t ih =>
    intro h
    have hc : ¬(c = sep) := h c (List.mem_cons_self c t)
    have ht := ih fun x hx => h x (List.mem_cons_of_mem c hx)
    simp [splitOnChar, hc, ht]

theorem splitOnChar_append {sep : Char} : ∀ xs ys : List Char, (∀ c ∈ xs, c ≠ sep) →
    splitOnChar sep (xs ++ sep :: ys) = xs :: splitOnChar sep ys := by
  intro xs
  induction xs with
  | nil =>
    intro ys _
    simp [splitOnChar]
  | cons c t ih =>
    intro ys h
    have hc : ¬(c = sep) := h c (List.mem_cons_self c t)
    have ht := ih ys fun x hx => h x (List.mem_cons_of_mem c hx)
    simp [splitOnChar, hc, ht]

/-! ## Checkpoint store lemmas -/

theorem ckptLine_data (p : String) (n : Nat) :
    (ckptLine p n).data = p.data ++ ('\t' :: natToChars n) ++ ['\n'] := by
  simp [ckptLine, String.data_append, List.append_assoc]

theorem getLast?_append_right {α : Type} {xs ys : List α} (h : ys ≠ []) :
    (xs ++ ys).getLast? = ys.getLast? := by
  rw [List.getLast?_append]
  cases hy : ys.getLast? with
  | none => exact absurd (List.getLast?_eq_none_iff.mp hy) h
  | some a => rfl

/-- The first line of the checkpoint file, stripped, for a path with no
leading whitespace and no tab or newline characters: the written line comes
back unchanged (without its final newline). -/
theorem ckptLine_firstLine_strip (p : String) (n : Nat)
    (hne : p.data ≠ [])
    (hhead : ∀ c, p.data.head? = some c → c.isWhitespace = false)
    (hclean : ∀ c ∈ p.data, c ≠ '\t' ∧ c ≠ '\n') :
    stripChars (firstLineChars (ckptLine p n).data) = p.data ++ '\t' :: natToChars n := by
  rw [ckptLine_data]
  have hq : ∀ x ∈ p.data ++ '\t' :: natToChars n, (fun c => decide (c ≠ '\n')) x = true := by
    intro x hx
    rcases List.mem_append.mp hx with hx | hx
    · simpa using (hclean x hx).2
    · rcases List.mem_cons.mp hx with rfl | hx
      · decide
      · simpa using (natToChars_props n x hx).2.1
  have hfl : firstLineChars (p.data ++ ('\t' :: natToChars n) ++ ['\n']) =
      p.data ++ '\t' :: natToChars n := by
    unfold firstLineChars
    rw [takeWhile_append_all _ _ _ hq]
    simp [List.takeWhile_cons]
  rw [hfl]
  obtain ⟨c, t, hpd⟩ : ∃ c t, p.data = c :: t := by
    cases hp : p.data with
    | nil => exact absurd hp hne
    | cons c t => exact ⟨c, t, rfl⟩
  apply stripChars_eq_self
  · intro x hx
    rw [hpd, List.cons_append] at hx
    apply hhead
    rw [hpd]
    simpa using hx
  · intro x hx
    rw [List.append_cons] at hx
    rw [getLast?_append_right (natToChars_ne_nil n)] at hx
    obtain ⟨hne', hx'⟩ := List.mem_getLast?_eq_getLast hx
    exact (natToChars_props n x (hx' ▸ List.getLast_mem hne')).2.2

theorem load_after_save (st : RunState) (p : String) (n : Nat)
    (hne : p.data ≠ [])
    (hhead : ∀ c, p.data.head? = some c → c.isWhitespace = false)
    (hclean : ∀ c ∈ p.data, c ≠ '\t' ∧ c ≠ '\n') :
    load_progress (save_progress st p n) = .ok (some p, n) := by
  have hline := ckptLine_firstLine_strip p n hne hhead hclean
  obtain ⟨c, t, hpd⟩ : ∃ c t, p.data = c :: t := by
    cases hp : p.data with
    | nil => exact absurd hp hne
    | cons c t => exact ⟨c, t, rfl⟩
  have hempty : (p.data ++ '\t' :: natToChars n).isEmpty = false := by
    rw [hpd]; rfl
  have hsplit : splitOnChar '\t' (p.data ++ '\t' :: natToChars n) =
      [p.data, natToChars n] := by
    rw [splitOnChar_append p.data (natToChars n) (fun x hx => (hclean x hx).1)]
    rw [splitOnChar_no_sep (natToChars n) (fun x hx => (natToChars_props n x hx).1)]
  simp only [load_progress, save_progress, hline, hempty, hsplit,
    parseNat_natToChars, Bool.false_eq_true, if_false]

/-! ## Row-handling lemmas -/

theorem write_dir (cfg : Config) (w : SplitWriter) (d : Dir) (r : Record) :
    (SplitWriter.write cfg w d r).2 = dirAppend d w.currentFile r := by
  simp only [SplitWriter.write]
  by_cases h : cfg.rows_per_file ≤ w.row_count + 1 <;> simp [h]

theorem processRow_ok_match (cfg : Config) (p : String) (i : Nat) (r : Record)
    (w : SplitWriter) (st : RunState) (hm : rowMatches cfg r = true) :
    processRow cfg p i (.ok r) w st =
      .ok ((SplitWriter.write cfg w st.dir r).1,
        if i % 1000 = 0 then
          save_progress { st with dir := (SplitWriter.write cfg w st.dir r).2 } p i
        else
          { st with dir := (SplitWriter.write cfg w st.dir r).2 }) := by
  have hm' : String.mk (lowerChars (rowGet r "subreddit" "").data) ∈ cfg.target_subreddits := by
    simpa [rowMatches] using hm
  simp only [processRow, hm', if_true]

theorem processRow_ok_nomatch (cfg : Config) (p : String) (i : Nat) (r : Record)
    (w : SplitWriter) (st : RunState) (hm : rowMatches cfg r = false) :
    processRow cfg p i (.ok r) w st = .ok (w, st) := by
  have hm' : String.mk (lowerChars (rowGet r "subreddit" "").data) ∉ cfg.target_subreddits := by
    simpa [rowMatches] using hm
  simp [processRow, hm']

theorem processRow_bad (cfg : Config) (p : String) (i : Nat) (e : String)
    (w : SplitWriter) (st : RunState) (hlog : st.errLogOk = true) :
    processRow cfg p i (.bad e) w st =
      .ok (w, { st with errors := st.errors ++ [⟨p, i, e⟩] }) := by
  simp [processRow, log_error, hlog]

/-! ## Aggregate counting lemmas -/

theorem badEntries_map_ok (p : String) (recs : List Record) : ∀ i,
    badEntries p (recs.map Row.ok) i = [] := by
  induction recs with
  | nil => intro i; rfl
  | cons r t ih => intro i; simp [badEntries, ih]

theorem badEntries_append (p : String) (xs ys : List Row) : ∀ i,
    badEntries p (xs ++ ys) i = badEntries p xs i ++ badEntries p ys (i + xs.length) := by
  induction xs with
  | nil => intro i; simp [badEntries]
  | cons row t ih =>
    intro i
    have harith : i + 1 + t.length = i + (t.length + 1) := by omega
    cases row with
    | ok r =>
      simp only [List.cons_append, badEntries, List.append_eq, ih (i + 1),
        List.length_cons, harith]
    | bad e =>
      simp only [List.cons_append, badEntries, List.append_eq, ih (i + 1),
        List.length_cons, harith]

theorem matchCount_map_ok (cfg : Config) (recs : List Record) :
    matchCount cfg (recs.map Row.ok) = recs.countP (rowMatches cfg) := by
  induction recs with
  | nil => rfl
  | cons r t ih =>
    simp only [List.map_cons, matchCount, ih, List.countP_cons]
    by_cases h : rowMatches cfg r
    · simp [h]; omega
    · simp [h]

theorem matchCount_append (cfg : Config) (xs ys : List Row) :
    matchCount cfg (xs ++ ys) = matchCount cfg xs + matchCount cfg ys := by
  induction xs with
  | nil => simp [matchCount]
  | cons row t ih =>
    cases row with
    | ok r => simp only [List.cons_append, matchCount, List.append_eq, ih]; omega
    | bad e => simp only [List.cons_append, matchCount, List.append_eq, ih]

/-- The whole row loop on a stream whose error log stays writable: it never
raises, appends exactly the error entries of the raising rows (with their
ordinals), and grows the output directory by exactly the number of rows the
filter admits. -/
theorem processRows_run (cfg : Config) (p : String) (rows : List Row) :
    ∀ i w st, st.errLogOk = true →
    ∃ w' st', processRows cfg p 0 rows i w st = .ok (w', st') ∧
      st'.errors = st.errors ++ badEntries p rows i ∧
      totalRows st'.dir = totalRows st.dir + matchCount cfg rows ∧
      st'.errLogOk = true := by
  induction rows with
  | nil =>
    intro i w st h
    exact ⟨w, st, rfl, by simp [badEntries], by simp [matchCount], h⟩
  | cons row rest ih =>
    intro i w st h
    cases row with
    | bad e =>
      obtain ⟨w', st', heq, herr, htot, hlog⟩ :=
        ih (i + 1) w { st with errors := st.errors ++ [⟨p, i, e⟩] } h
      refine ⟨w', st', ?_, ?_, ?_, hlog⟩
      · simp only [processRows, Nat.not_lt_zero, if_false, processRow_bad cfg p i e w st h]
        exact heq
      · simp only [herr, badEntries]
        simp
      · simpa [matchCount] using htot
    | ok r =>
      by_cases hm : rowMatches cfg r
      · set st1 := if i % 1000 = 0 then
            save_progress { st with dir := (SplitWriter.write cfg w st.dir r).2 } p i
          else
            { st with dir := (SplitWriter.write cfg w st.dir r).2 } with hst1
        have hdir1 : st1.dir = dirAppend st.dir w.currentFile r := by
          by_cases hi : i % 1000 = 0 <;> simp [hst1, hi, save_progress, write_dir]
        have herr1 : st1.errors = st.errors := by
          by_cases hi : i % 1000 = 0 <;> simp [hst1, hi, save_progress]
        have hlog1 : st1.errLogOk = true := by
          by_cases hi : i % 1000 = 0 <;> simp [hst1, hi, save_progress, h]
        obtain ⟨w', st', heq, herr, htot, hlog⟩ :=
          ih (i + 1) (SplitWriter.write cfg w st.dir r).1 st1 hlog1
        refine ⟨w', st', ?_, ?_, ?_, hlog⟩
        · simp only [processRows, Nat.not_lt_zero, if_false,
            processRow_ok_match cfg p i r w st hm]
          exact heq
        · rw [herr, herr1]
          simp [badEntries]
        · rw [htot, hdir1] at *
          rw [totalRows_dirAppend]
          simp [matchCount, hm]
          omega
      · have hm' : rowMatches cfg r = false := by simpa using hm
        obtain ⟨w', st', heq, herr, htot, hlog⟩ := ih (i + 1) w st h
        refine ⟨w', st', ?_, ?_, ?_, hlog⟩
        · simp only [processRows, Nat.not_lt_zero, if_false,
            processRow_ok_nomatch cfg p i r w st hm']
          exact heq
        · simpa [badEntries] using herr
        · simpa [matchCount, hm'] using htot

/-! ## Shard-writer capacity invariant (single writer, fresh directory) -/

theorem shardName_ne {pfx : String} {j k : Nat} (h : j ≠ k) :
    shardName pfx j ≠ shardName pfx k :=
  fun he => h (shardName_inj he)

/-- Invariant a single `SplitWriter` maintains over a directory it started
empty: the writer has opened at least one shard, the open shard holds
exactly `row_count` rows and is strictly under capacity, every shard at or
past `file_index` is still untouched, every file is within capacity, and
every shard the writer rotated past is exactly full. -/
def WInv (cfg : Config) (w : SplitWriter) (d : Dir) : Prop :=
  1 ≤ w.file_index ∧
  w.row_count < cfg.rows_per_file ∧
  (dirGet d w.currentFile).length = w.row_count ∧
  (∀ j, w.file_index ≤ j → dirGet d (shardName w.pfx j) = []) ∧
  (∀ name, (dirGet d name).length ≤ cfg.rows_per_file) ∧
  (∀ j, j + 1 < w.file_index → (dirGet d (shardName w.pfx j)).length = cfg.rows_per_file)

theorem WInv_init (cfg : Config) (pfx : String) (h : 1 ≤ cfg.rows_per_file) :
    WInv cfg (SplitWriter.init pfx) [] := by
  refine ⟨Nat.le_refl 1, h, ?_, ?_, ?_, ?_⟩
  · rfl
  · intro j _; rfl
  · intro name; simp [dirGet]
  · intro j hj
    simp [SplitWriter.init, SplitWriter.open_new_file] at hj

theorem WInv_write (cfg : Config) (w : SplitWriter) (d : Dir) (r : Record)
    (hInv : WInv cfg w d) :
    WInv cfg (SplitWriter.write cfg w d r).1 (SplitWriter.write cfg w d r).2 ∧
      (SplitWriter.write cfg w d r).1.pfx = w.pfx := by
  obtain ⟨hfi, hrc, hcur, hfresh, hcap, hfull⟩ := hInv
  have hd2 : (SplitWriter.write cfg w d r).2 = dirAppend d w.currentFile r := write_dir cfg w d r
  have hcur_len : (dirGet (dirAppend d w.currentFile r) w.currentFile).length = w.row_count + 1 := by
    rw [dirGet_dirAppend_same, List.length_append, hcur]; rfl
  have hother : ∀ name, name ≠ w.currentFile →
      dirGet (dirAppend d w.currentFile r) name = dirGet d name :=
    fun name hne => dirGet_dirAppend_ne d w.currentFile name r hne
  have hcap2 : ∀ name, (dirGet (dirAppend d w.currentFile r) name).length ≤ cfg.rows_per_file := by
    intro name
    by_cases hne : name = w.currentFile
    · subst hne; rw [hcur_len]; omega
    · rw [hother name hne]; exact hcap name
  have hcur_name : w.currentFile = shardName w.pfx (w.file_index - 1) := rfl
  by_cases hrot : cfg.rows_per_file ≤ w.row_count + 1
  · have hexact : w.row_count + 1 = cfg.rows_per_file := by omega
    have hw1 : (SplitWriter.write cfg w d r).1 =
        { pfx := w.pfx, file_index := w.file_index + 1, row_count := 0 } := by
      simp [SplitWriter.write, hrot, SplitWriter.open_new_file]
    rw [hw1, hd2]
    unfold WInv SplitWriter.currentFile
    dsimp only
    have hidx : w.file_index + 1 - 1 = w.file_index := by omega
    rw [hidx, ← hcur_name]
    refine ⟨⟨by omega, by omega, ?_, ?_, hcap2, ?_⟩, rfl⟩
    · have hne : shardName w.pfx w.file_index ≠ w.currentFile := by
        rw [hcur_name]
        exact shardName_ne (by omega)
      rw [hother _ hne, hfresh w.file_index (Nat.le_refl _)]
      rfl
    · intro j hj
      have hne : shardName w.pfx j ≠ w.currentFile := by
        rw [hcur_name]
        exact shardName_ne (by omega)
      rw [hother _ hne]
      exact hfresh j (by omega)
    · intro j hj
      by_cases hje : j = w.file_index - 1
      · subst hje
        rw [← hcur_name, hcur_len, hexact]
      · have hne : shardName w.pfx j ≠ w.currentFile := by
          rw [hcur_name]
          exact shardName_ne hje
        rw [hother _ hne]
        exact hfull j (by omega)
  · have hw1 : (SplitWriter.write cfg w d r).1 =
        { pfx := w.pfx, file_index := w.file_index, row_count := w.row_count + 1 } := by
      simp [SplitWriter.write, hrot]
    rw [hw1, hd2]
    unfold WInv SplitWriter.currentFile
    dsimp only
    rw [← hcur_name]
    refine ⟨⟨hfi, by omega, ?_, ?_, hcap2, ?_⟩, rfl⟩
    · rw [hcur_len]
    · intro j hj
      have hne : shardName w.pfx j ≠ w.currentFile := by
        rw [hcur_name]
        exact shardName_ne (by omega)
      rw [hother _ hne]
      exact hfresh j hj
    · intro j hj
      have hne : shardName w.pfx j ≠ w.currentFile := by
        rw [hcur_name]
        exact shardName_ne (by omega)
      rw [hother _ hne]
      exact hfull j hj

theorem processRows_WInv (cfg : Config) (p : String) (sr : Nat) (rows : List Row) :
    ∀ i w st w' st', WInv cfg w st.dir → 1 ≤ cfg.rows_per_file →
    processRows cfg p sr rows i w st = .ok (w', st') →
    WInv cfg w' st'.dir ∧ w'.pfx = w.pfx := by
  induction rows with
  | nil =>
    intro i w st w' st' hInv _ heq
    simp only [processRows] at heq
    obtain ⟨rfl, rfl⟩ : w = w' ∧ st = st' := by
      constructor <;> (cases heq; rfl)
    exact ⟨hInv, rfl⟩
  | cons row rest ih =>
    intro i w st w' st' hInv hth heq
    by_cases hskip : i < sr
    · simp only [processRows, hskip, if_true] at heq
      exact ih (i + 1) w st w' st' hInv hth heq
    · simp only [processRows, hskip, if_false] at heq
      cases row with
      | bad e =>
        cases hlog : st.errLogOk with
        | false =>
          rw [processRow] at heq
          simp [log_error, hlog] at heq
        | true =>
          rw [processRow_bad cfg p i e w st hlog] at heq
          dsimp only at heq
          exact ih (i + 1) w { st with errors := st.errors ++ [⟨p, i, e⟩] } w' st' hInv hth heq
      | ok r =>
        by_cases hm : rowMatches cfg r
        · rw [processRow_ok_match cfg p i r w st hm] at heq
          dsimp only at heq
          have hnext := WInv_write cfg w st.dir r hInv
          by_cases hi : i % 1000 = 0
          · rw [if_pos hi] at heq
            have := ih (i + 1) _ _ w' st' (by simpa [save_progress] using hnext.1) hth heq
            exact ⟨this.1, hnext.2 ▸ this.2⟩
          · rw [if_neg hi] at heq
            have := ih (i + 1) _ _ w' st' (by simpa using hnext.1) hth heq
            exact ⟨this.1, hnext.2 ▸ this.2⟩
        · rw [processRow_ok_nomatch cfg p i r w st (by simpa using hm)] at heq
          dsimp only at heq
          exact ih (i + 1) w st w' st' hInv hth heq

/-! ## Concrete data for scenarios, counterexamples and witnesses -/

/-- The script's configuration with the rows-per-shard threshold set to 2,
as in the spec's rotation scenario. -/
def cfg2 : Config := { defaultConfig with rows_per_file := 2 }

/-- A record the filter admits (`"HomeLab"` lower-cases into the target set). -/
def mrec : Record := [("subreddit", "HomeLab")]

/-- A record the filter rejects. -/
def nmrec : Record := [("subreddit", "funny")]

/-- A decidable conjunction of the conditions under which the checkpoint
line survives `strip`/`split` parsing: nonempty, no leading whitespace, and
free of tab and newline characters. -/
def goodCkptPath (p : String) : Bool :=
  (match p.data.head? with
   | some c => !c.isWhitespace
   | none => false) &&
  p.data.all (fun c => !(c == '\t') && !(c == '\n'))

theorem goodCkptPath_ne_nil {p : String} (h : goodCkptPath p = true) : p.data ≠ [] := by
  intro h0
  rw [goodCkptPath, h0] at h
  simp at h

theorem goodCkptPath_head {p : String} (h : goodCkptPath p = true) :
    ∀ c, p.data.head? = some c → c.isWhitespace = false := by
  intro c hc
  rw [goodCkptPath, hc] at h
  simp at h
  exact h.1

theorem goodCkptPath_clean {p : String} (h : goodCkptPath p = true) :
    ∀ c ∈ p.data, c ≠ '\t' ∧ c ≠ '\n' := by
  intro c hc
  rw [goodCkptPath] at h
  have := (Bool.and_eq_true _ _).mp h |>.2
  rw [List.all_eq_true] at this
  have hcc := this c hc
  simp at hcc
  exact hcc

/-- Skipping heads past a start file that never matches. -/
theorem processFolderAux_skip_all (cfg : Config) (F : String) (sr : Nat) :
    ∀ (files : List InputFile) (st : RunState), (∀ f ∈ files, f.path ≠ F) →
    processFolderAux cfg F sr files false st = .ok st := by
  intro files
  induction files with
  | nil => intro st _; rfl
  | cons f rest ih =>
    intro st h
    have hf : ¬(f.path = F) := h f (List.mem_cons_self f rest)
    simp only [processFolderAux, Bool.false_eq_true, if_false, hf]
    exact ih st fun g hg => h g (List.mem_cons_of_mem f hg)

/-! ## Claims -/

/-- C7: file classification is a pure function of the base name alone: a
base name containing `rs_` case-insensitively is a Submission, otherwise
one containing `rc_` is a Comment, and any other name is Unrecognized; an
unrecognized file is skipped by `processFile` before any open or read — the
state comes back unchanged whatever the file's stream would have held. -/
theorem C7_classifier (p : String) :
    (hasSub "rs_".data (lowerChars (basenameChars p.data)) = true →
      detect_file_type p = .submission) ∧
    (hasSub "rs_".data (lowerChars (basenameChars p.data)) = false →
      hasSub "rc_".data (lowerChars (basenameChars p.data)) = true →
      detect_file_type p = .comment) ∧
    (hasSub "rs_".data (lowerChars (basenameChars p.data)) = false →
      hasSub "rc_".data (lowerChars (basenameChars p.data)) = false →
      detect_file_type p = .unknown) ∧
    (∀ q : String, basenameChars p.data = basenameChars q.data →
      detect_file_type p = detect_file_type q) ∧
    (detect_file_type p = .unknown →
      ∀ (cfg : Config) (s : Option (List Row)) (sr : Nat) (st : RunState),
        processFile cfg ⟨p, s⟩ sr st = .ok st) := by
  refine ⟨?_, ?_, ?_, ?_, ?_⟩
  · intro h
    simp [detect_file_type, h]
  · intro h1 h2
    simp [detect_file_type, h1, h2]
  · intro h1 h2
    simp [detect_file_type, h1, h2]
  · intro q hq
    simp only [detect_file_type, hq]
  · intro h cfg s sr st
    simp only [processFile, h]

theorem C7_witness : detect_file_type "data/RS_2024-01.zst" = .submission ∧
    processFile defaultConfig ⟨"data/readme.txt", some [Row.ok mrec]⟩ 0 initState =
      .ok initState :=
  ⟨(C7_classifier "data/RS_2024-01.zst").1 (by decide),
   (C7_classifier "data/readme.txt").2.2.2.2 (by decide) defaultConfig
     (some [Row.ok mrec]) 0 initState⟩

/-- C9 counterexample: `log_error` has no handler around
`open(error_log_file, "a")`, so in a state where the error log cannot be
opened the call raises instead of appending and returning — refuting the
claim that `record` never raises for every state of the error-log file. -/
theorem C9_counterexample :
    log_error { dir := [], errors := [], checkpoint := none, errLogOk := false }
      "f" 0 "boom" = .error "OSError" := rfl

/-- C9 (amended): whenever the error-log file can be opened for append,
`log_error` appends exactly one structured entry and returns without
raising; when the open fails, the exception propagates to the caller. -/
theorem C9_log_error_appends (st : RunState) (f : String) (i : Nat) (e : String)
    (h : st.errLogOk = true) :
    log_error st f i e = .ok { st with errors := st.errors ++ [⟨f, i, e⟩] } := by
  simp [log_error, h]

theorem C9_witness :
    log_error initState "f" 0 "boom" =
      .ok { dir := [], errors := [⟨"f", 0, "boom"⟩], checkpoint := none, errLogOk := true } :=
  C9_log_error_appends initState "f" 0 "boom" rfl

/-- C10: when the checkpointed file is never yielded by the enumeration,
the `started` flag never flips, so the folder loop processes no file at all
and the run state comes back untouched. -/
theorem C10_stale_checkpoint_skips_everything (cfg : Config) (F : String) (sr : Nat)
    (files : List InputFile) (st : RunState) (h : ∀ f ∈ files, f.path ≠ F) :
    processFolder cfg files (some F) sr st = .ok st := by
  unfold processFolder
  exact processFolderAux_skip_all cfg F sr files st h

theorem C10_witness :
    processFolder defaultConfig
      [⟨"rs_a.jsonl", some [Row.ok mrec]⟩, ⟨"rc_b.jsonl", some [Row.ok mrec]⟩]
      (some "deleted/rs_gone.jsonl") 7 initState = .ok initState :=
  C10_stale_checkpoint_skips_everything defaultConfig "deleted/rs_gone.jsonl" 7
    [⟨"rs_a.jsonl", some [Row.ok mrec]⟩, ⟨"rc_b.jsonl", some [Row.ok mrec]⟩]
    initState (by decide)

/-- C8 counterexample: the round trip is not exact for every path — a path
with leading whitespace is altered by `strip` on load: after
`save_progress " a" 5`, `load_progress` returns `("a", 5)`, not the saved
`(" a", 5)`. -/
theorem C8_counterexample :
    load_progress (save_progress initState " a" 5) = .ok (some "a", 5) ∧
    (" a" : String) ≠ "a" := by
  constructor
  · rfl
  · decide

/-- C8 (amended): for every path that is nonempty, has no leading
whitespace, and contains no tab or newline (`goodCkptPath`), `load` after
`save` returns exactly the saved pair; each `save` overwrites any prior
value outright; and `load` before any save returns the none result. -/
theorem C8_checkpoint_roundtrip (st : RunState) (p : String) (n : Nat)
    (h : goodCkptPath p = true) :
    load_progress (save_progress st p n) = .ok (some p, n) ∧
    (∀ (st0 : RunState) (p0 : String) (n0 : Nat),
      save_progress (save_progress st0 p0 n0) p n = save_progress st0 p n) ∧
    load_progress initState = .ok (none, 0) :=
  ⟨load_after_save st p n (goodCkptPath_ne_nil h) (goodCkptPath_head h)
      (goodCkptPath_clean h),
   fun _ _ _ => rfl, rfl⟩

theorem C8_witness :
    load_progress (save_progress initState "data/RS_2023-01.zst" 42) =
      .ok (some "data/RS_2023-01.zst", 42) :=
  (C8_checkpoint_roundtrip initState "data/RS_2023-01.zst" 42 (by decide)).1

/-- C6: with rotation threshold 2 and a fresh output directory, one
submission file of three matching rows produces
`filtered_submissions_0000.jsonl` with exactly two rows and
`filtered_submissions_0001.jsonl` with exactly one row (absent names hold
no rows in the directory model, so the second shard's single row is its
whole content); `SplitWriter.write` returns the updated writer and
directory in both the rotating and non-rotating case, with no distinguished
result marking a rotation. -/
theorem C6_rotation_scenario :
    processFile cfg2 ⟨"RS_2023-01.jsonl", some [Row.ok mrec, Row.ok mrec, Row.ok mrec]⟩
        0 initState =
      .ok { dir := [("filtered_submissions_0000.jsonl", [mrec, mrec]),
                    ("filtered_submissions_0001.jsonl", [mrec])],
            errors := [], checkpoint := some "RS_2023-01.jsonl\t0\n", errLogOk := true } ∧
    (dirGet [("filtered_submissions_0000.jsonl", [mrec, mrec]),
             ("filtered_submissions_0001.jsonl", [mrec])]
        "filtered_submissions_0000.jsonl").length = 2 ∧
    (dirGet [("filtered_submissions_0000.jsonl", [mrec, mrec]),
             ("filtered_submissions_0001.jsonl", [mrec])]
        "filtered_submissions_0001.jsonl").length = 1 := by
  refine ⟨rfl, rfl, rfl⟩

/-- C1: one row of the stream is written to the open shard if and only if
its `subreddit` field, lower-cased, lies in the configured target set: a
matching record is appended to the writer's current shard with no error
recorded, a non-matching record leaves writer and state untouched, and a
record with no `subreddit` field at all is a non-match (the default `""` is
not a target), so it is neither written nor logged as an error. -/
theorem C1_filter_iff (cfg : Config) (p : String) (i : Nat) (r : Record)
    (w : SplitWriter) (st : RunState) (hdefault : "" ∉ cfg.target_subreddits) :
    (rowMatches cfg r = true →
      ∃ ws : SplitWriter × RunState, processRow cfg p i (.ok r) w st = .ok ws ∧
        dirGet ws.2.dir w.currentFile = dirGet st.dir w.currentFile ++ [r] ∧
        ws.2.errors = st.errors) ∧
    (rowMatches cfg r = false →
      processRow cfg p i (.ok r) w st = .ok (w, st)) ∧
    (List.find? (fun q => q.1 = "subreddit") r = none →
      processRow cfg p i (.ok r) w st = .ok (w, st)) := by
  refine ⟨?_, ?_, ?_⟩
  · intro hm
    rw [processRow_ok_match cfg p i r w st hm]
    refine ⟨_, rfl, ?_, ?_⟩
    · by_cases hi : i % 1000 = 0 <;>
        simp [hi, save_progress, write_dir, dirGet_dirAppend_same]
    · by_cases hi : i % 1000 = 0 <;> simp [hi, save_progress]
  · exact processRow_ok_nomatch cfg p i r w st
  · intro hmiss
    apply processRow_ok_nomatch
    have hget : rowGet r "subreddit" "" = "" := by
      simp [rowGet, hmiss]
    have h0 : String.mk (lowerChars (rowGet r "subreddit" "").data) = "" := by
      rw [hget]
      rfl
    simp [rowMatches, h0, hdefault]

theorem C1_witness :
    ∃ ws : SplitWriter × RunState,
      processRow defaultConfig "rs_a" 1 (.ok mrec)
          (SplitWriter.init "filtered_submissions") initState = .ok ws ∧
      dirGet ws.2.dir (SplitWriter.init "filtered_submissions").currentFile =
        dirGet initState.dir (SplitWriter.init "filtered_submissions").currentFile ++ [mrec] ∧
      ws.2.errors = initState.errors :=
  (C1_filter_iff defaultConfig "rs_a" 1 mrec (SplitWriter.init "filtered_submissions")
    initState (by decide)).1 (by decide)

/-- C3 counterexample: a non-matching row at ordinal 0 — a multiple of the
cadence — triggers no checkpoint save: the filter's `continue` runs before
the `i % 1000 == 0` check, so the progress file stays absent.  The claim
that a save occurs at every cadence ordinal regardless of the filter is
false. -/
theorem C3_counterexample :
    processFile defaultConfig ⟨"rs_a.jsonl", some [Row.ok nmrec]⟩ 0 initState =
      .ok initState ∧
    (0 : Nat) % 1000 = 0 ∧ initState.checkpoint = none := by
  refine ⟨rfl, rfl, rfl⟩

/-- C3 (amended): a checkpoint save happens for a handled row exactly when
the row matches the filter, its write returned, and its ordinal is a
multiple of 1000: then the progress file holds `(file, ordinal)`; a
matching row off the cadence leaves the checkpoint unchanged, a
non-matching row changes nothing at all, and a raising row only appends to
the error log. -/
theorem C3_cadence (cfg : Config) (p : String) (i : Nat) (r : Record) (e : String)
    (w : SplitWriter) (st : RunState) :
    (rowMatches cfg r = true → i % 1000 = 0 →
      ∃ ws : SplitWriter × RunState, processRow cfg p i (.ok r) w st = .ok ws ∧
        ws.2.checkpoint = some (ckptLine p i)) ∧
    (rowMatches cfg r = true → i % 1000 ≠ 0 →
      ∃ ws : SplitWriter × RunState, processRow cfg p i (.ok r) w st = .ok ws ∧
        ws.2.checkpoint = st.checkpoint) ∧
    (rowMatches cfg r = false →
      processRow cfg p i (.ok r) w st = .ok (w, st)) ∧
    (st.errLogOk = true →
      ∃ st' : RunState, processRow cfg p i (.bad e) w st = .ok (w, st') ∧
        st'.checkpoint = st.checkpoint) := by
  refine ⟨?_, ?_, ?_, ?_⟩
  · intro hm hi
    rw [processRow_ok_match cfg p i r w st hm]
    exact ⟨_, rfl, by simp [hi, save_progress]⟩
  · intro hm hi
    rw [processRow_ok_match cfg p i r w st hm]
    exact ⟨_, rfl, by simp [hi]⟩
  · exact processRow_ok_nomatch cfg p i r w st
  · intro hlog
    rw [processRow_bad cfg p i e w st hlog]
    exact ⟨_, rfl, rfl⟩

theorem C3_witness :
    ∃ ws : SplitWriter × RunState,
      processRow defaultConfig "rs_a" 0 (.ok mrec)
          (SplitWriter.init "filtered_submissions") initState = .ok ws ∧
      ws.2.checkpoint = some (ckptLine "rs_a" 0) :=
  (C3_cadence defaultConfig "rs_a" 0 mrec "boom"
    (SplitWriter.init "filtered_submissions") initState).1 (by decide) rfl

/-- C4: with a saved checkpoint `(F, k)`, a file enumerated before the
first occurrence of `F` is dropped by the folder loop without being
classified, opened or streamed (the recursion steps over it with the state
untouched); the file `F` itself is processed with `start_row = k`; every
file after `F` is processed with `start_row = 0`; and inside the row loop a
row with ordinal below `start_row` is skipped by `continue` with no effect
while a row at or above it is handed to the row handler. -/
theorem C4_resume (cfg : Config) (F : String) (sr : Nat) (st : RunState) :
    (∀ (g : InputFile) (rest : List InputFile), g.path ≠ F →
      processFolderAux cfg F sr (g :: rest) false st =
        processFolderAux cfg F sr rest false st) ∧
    (∀ (f : InputFile) (rest : List InputFile), f.path = F →
      processFolderAux cfg F sr (f :: rest) false st =
        match processFile cfg f sr st with
        | .ok st1 => processFolderAux cfg F sr rest true st1
        | .error e => .error e) ∧
    (∀ (f : InputFile) (rest : List InputFile),
      processFolderAux cfg F sr (f :: rest) true st =
        match processFile cfg f 0 st with
        | .ok st1 => processFolderAux cfg F sr rest true st1
        | .error e => .error e) ∧
    (∀ (p : String) (row : Row) (rest : List Row) (i : Nat) (w : SplitWriter),
      i < sr →
      processRows cfg p sr (row :: rest) i w st =
        processRows cfg p sr rest (i + 1) w st) ∧
    (∀ (p : String) (row : Row) (rest : List Row) (i : Nat) (w : SplitWriter),
      ¬ i < sr →
      processRows cfg p sr (row :: rest) i w st =
        match processRow cfg p i row w st with
        | .ok ws => processRows cfg p sr rest (i + 1) ws.1 ws.2
        | .error e => .error e) := by
  refine ⟨?_, ?_, ?_, ?_, ?_⟩
  · intro g rest hg
    simp [processFolderAux, hg]
  · intro f rest hf
    simp [processFolderAux, hf]
  · intro f rest
    simp [processFolderAux]
  · intro p row rest i w hi
    simp [processRows, hi]
  · intro p row rest i w hi
    simp only [processRows, hi, if_false]
    rcases processRow cfg p i row w st with e | ⟨w1, st1⟩ <;> rfl

theorem C4_witness :
    processFolderAux defaultConfig "rs_b.jsonl" 3
        [⟨"rs_a.jsonl", some [Row.ok mrec]⟩] false initState =
      processFolderAux defaultConfig "rs_b.jsonl" 3 [] false initState ∧
    processRows defaultConfig "rs_b.jsonl" 3 [Row.ok mrec] 0
        (SplitWriter.init "filtered_submissions") initState =
      processRows defaultConfig "rs_b.jsonl" 3 [] 1
        (SplitWriter.init "filtered_submissions") initState :=
  ⟨(C4_resume defaultConfig "rs_b.jsonl" 3 initState).1
      ⟨"rs_a.jsonl", some [Row.ok mrec]⟩ [] (by decide),
   (C4_resume defaultConfig "rs_b.jsonl" 3 initState).2.2.2.1
      "rs_b.jsonl" (Row.ok mrec) [] 0 (SplitWriter.init "filtered_submissions")
      (by decide)⟩

/-- The two-file run refuting C2. -/
def c2files : List InputFile :=
  [⟨"rs_a", some [Row.ok mrec, Row.ok mrec]⟩, ⟨"rs_b", some [Row.ok mrec, Row.ok mrec]⟩]

/-- The final state of the two-file run refuting C2: shard 0 holds four
rows against a threshold of two. -/
def c2bad : RunState :=
  { dir := [("filtered_submissions_0000.jsonl", [mrec, mrec, mrec, mrec])],
    errors := [], checkpoint := some "rs_b\t0\n", errLogOk := true }

/-- C2 counterexample: with threshold 2 and two submission files of two
matching rows each, `processFile` builds a fresh `SplitWriter` per input
file, so the second file reopens `filtered_submissions_0000.jsonl` in
append mode with its row counter reset: the shard — rotated past by both
writers — ends the run with 4 rows, exceeding the threshold 2.  The
capacity invariant does not hold across several input files of one kind. -/
theorem C2_counterexample :
    processFolder cfg2 c2files none 0 initState = .ok c2bad ∧
    (dirGet c2bad.dir "filtered_submissions_0000.jsonl").length = 4 ∧
    cfg2.rows_per_file = 2 := by
  refine ⟨rfl, rfl, rfl⟩

/-- C2 (amended): within a single `processFile` invocation whose writer
starts on an empty output directory, no shard file ever exceeds the
threshold, and every shard the writer rotated past holds exactly the
threshold number of rows (only the still-open shard may be under it).
Across several input files of one kind, or resuming into pre-existing
shard files, the bound fails because each new writer reopens shard 0 in
append mode with its row counter reset (see the counterexample). -/
theorem C2_sealed_shard_capacity (cfg : Config) (p pfx : String) (sr : Nat)
    (rows : List Row) (st : RunState) (w' : SplitWriter) (st' : RunState)
    (hth : 1 ≤ cfg.rows_per_file) (hdir : st.dir = [])
    (hrun : processRows cfg p sr rows 0 (SplitWriter.init pfx) st = .ok (w', st')) :
    (∀ name, (dirGet st'.dir name).length ≤ cfg.rows_per_file) ∧
    (∀ j, j + 1 < w'.file_index →
      (dirGet st'.dir (shardName pfx j)).length = cfg.rows_per_file) := by
  have h0 : WInv cfg (SplitWriter.init pfx) st.dir := by
    rw [hdir]
    exact WInv_init cfg pfx hth
  obtain ⟨hInv, hpfx⟩ :=
    processRows_WInv cfg p sr rows 0 (SplitWriter.init pfx) st w' st' h0 hth hrun
  have hpfx' : w'.pfx = pfx := by
    simpa [SplitWriter.init, SplitWriter.open_new_file] using hpfx
  refine ⟨hInv.2.2.2.2.1, ?_⟩
  rw [← hpfx']
  exact hInv.2.2.2.2.2

/-- The writer and state after the three-matching-row run used as the C2
witness. -/
def c2w : SplitWriter := ⟨"filtered_submissions", 2, 1⟩

/-- See `c2w`. -/
def c2st : RunState :=
  { dir := [("filtered_submissions_0000.jsonl", [mrec, mrec]),
            ("filtered_submissions_0001.jsonl", [mrec])],
    errors := [], checkpoint := some "rs_a\t0\n", errLogOk := true }

theorem C2_witness :
    (dirGet c2st.dir (shardName "filtered_submissions" 0)).length = cfg2.rows_per_file :=
  (C2_sealed_shard_capacity cfg2 "rs_a" "filtered_submissions" 0
    [Row.ok mrec, Row.ok mrec, Row.ok mrec] initState c2w c2st
    (by decide) rfl rfl).2 0 (by decide)

/-- C5: in a file whose stream is `good1 ++ [raising row] ++ good2` (all
other rows well-formed), the run of the row loop inside `processFile`
appends exactly one error-log entry, carrying the raising row's ordinal
`good1.length`, and still writes every matching row of `good1` and `good2`
to the shards: the single bad row aborts neither the file nor the run. -/
theorem C5_error_isolation (cfg : Config) (p : String) (good1 good2 : List Record)
    (e : String) (st st' : RunState)
    (hty : detect_file_type p = .submission)
    (hlog : st.errLogOk = true)
    (hrun : processFile cfg ⟨p, some (good1.map .ok ++ .bad e :: good2.map .ok)⟩ 0 st
      = .ok st') :
    st'.errors = st.errors ++ [⟨p, good1.length, e⟩] ∧
    totalRows st'.dir = totalRows st.dir +
      (good1.countP (rowMatches cfg) + good2.countP (rowMatches cfg)) := by
  obtain ⟨w1, st1, heq, herr, htot, _⟩ :=
    processRows_run cfg p (good1.map .ok ++ .bad e :: good2.map .ok) 0
      (SplitWriter.init cfg.submissionsPfx) st hlog
  simp only [processFile, hty, heq] at hrun
  obtain rfl : st1 = st' := by
    cases hrun
    rfl
  constructor
  · rw [herr, badEntries_append, badEntries_map_ok]
    simp [badEntries, badEntries_map_ok, List.length_map]
  · rw [htot, matchCount_append, matchCount_map_ok]
    simp [matchCount, matchCount_map_ok]

theorem C5_witness :
    processFile defaultConfig ⟨"rs_a", some ([mrec].map .ok ++ .bad "boom" :: [nmrec].map .ok)⟩
        0 initState =
      .ok { dir := [("filtered_submissions_0000.jsonl", [mrec])],
            errors := [⟨"rs_a", 1, "boom"⟩],
            checkpoint := some "rs_a\t0\n", errLogOk := true } ∧
    ({ dir := [("filtered_submissions_0000.jsonl", [mrec])],
       errors := [⟨"rs_a", 1, "boom"⟩],
       checkpoint := some "rs_a\t0\n", errLogOk := true } : RunState).errors =
      initState.errors ++ [⟨"rs_a", ([mrec] : List Record).length, "boom"⟩] :=
  ⟨rfl,
   (C5_error_isolation defaultConfig "rs_a" [mrec] [nmrec] "boom" initState
      { dir := [("filtered_submissions_0000.jsonl", [mrec])],
        errors := [⟨"rs_a", 1, "boom"⟩],
        checkpoint := some "rs_a\t0\n", errLogOk := true }
      (by decide) rfl rfl).1⟩

end ProcessFiles
